import Mathlib

/-!
Verification of the speaker separation and role-assignment subsystem
(`scripts/lib_speaker.py`): a shallow embedding of the diarizer, the
segment aligner, the speaker aggregator, the role inferencer, the
speaking-balance computer, the role-aware sentiment aggregator and the
stereo/mono facade, together with theorems settling the specified
behaviour of each component.

Modelling conventions:
- Python floats are modelled as exact rationals (`ℚ`).
- Python strings are modelled as Lean `String`; the Python primitives
  `str.strip`, `str.split()`, `str.lower`, `str.upper`, `sep.join` and
  the substring operator `in` are re-implemented structurally over the
  character list (ASCII semantics) so that they compute by `decide`.
- A dictionary key that the source may leave absent (`role`,
  `language`, `duration`, `text`) is modelled as an `Option`.
- Collaborators (the transcription engine and the sentiment analyzer)
  are function-valued parameters; side effects of the facade (temporary
  file creation/deletion, collaborator invocations) are recorded in an
  explicit event trace returned next to the result.
-/

/-- Python's default whitespace class (ASCII part), as used by
`str.strip()` and `str.split()`. -/
def pySpace (c : Char) : Bool :=
  c = ' ' || c = '\t' || c = '\n' || c = '\r' || c = '\x0b' || c = '\x0c'

/-- Python `str.strip()`: drop leading and trailing whitespace. -/
def pyStrip (s : String) : String :=
  ⟨((s.data.dropWhile pySpace).reverse.dropWhile pySpace).reverse⟩

/-- Helper for `pySplit`: scan the characters, `acc` holding the current
token reversed. -/
def pySplitGo : List Char → List Char → List String
  | [], acc => if acc.isEmpty then [] else [⟨acc.reverse⟩]
  | c :: cs, acc =>
    if pySpace c then
      if acc.isEmpty then pySplitGo cs [] else ⟨acc.reverse⟩ :: pySplitGo cs []
    else pySplitGo cs (c :: acc)

/-- Python `str.split()` with no argument: split on runs of whitespace,
discarding empty tokens. -/
def pySplit (s : String) : List String := pySplitGo s.data []

/-- Python `str.lower()` (ASCII semantics). -/
def pyLower (s : String) : String := ⟨s.data.map Char.toLower⟩

/-- Python `str.upper()` (ASCII semantics). -/
def pyUpper (s : String) : String := ⟨s.data.map Char.toUpper⟩

/-- Does `pat` occur at the head of the second list? -/
def prefixMatch : List Char → List Char → Bool
  | [], _ => true
  | _ :: _, [] => false
  | c :: cs, d :: ds => c = d && prefixMatch cs ds

/-- Does `pat` occur as a contiguous sublist? -/
def subMatch (pat : List Char) : List Char → Bool
  | [] => prefixMatch pat []
  | d :: ds => prefixMatch pat (d :: ds) || subMatch pat ds

/-- Python's substring test `needle in hay`. -/
def strContains (hay needle : String) : Bool := subMatch needle.data hay.data

/-- Python `sep.join(xs)`. -/
def pyJoin (sep : String) : List String → String
  | [] => ""
  | [x] => x
  | x :: y :: rest => x ++ sep ++ pyJoin sep (y :: rest)

/-- Concatenation of a list of strings (Python `"".join` /
repeated `+=`). -/
def concatAll : List String → String
  | [] => ""
  | s :: rest => s ++ concatAll rest

/-- `Path(p).name`: the final path component. -/
def pyBasename (s : String) : String :=
  ⟨(s.data.reverse.takeWhile (fun c => c ≠ '/')).reverse⟩

/-- Audio metadata used for routing the pipeline
(`AudioProfile` dataclass). -/
structure AudioProfile where
  channels : ℕ
  sample_rate : ℕ
  duration_seconds : ℚ
  sample_width : ℕ
  frame_rate : ℕ
  format : String
deriving DecidableEq

/-- `AudioProfile.is_stereo`: `channels == 2`. -/
def AudioProfile.is_stereo (p : AudioProfile) : Bool := p.channels == 2

/-- A diarized segment (`SpeakerSegment` dataclass). The source field
`end` is named `stop` here (`end` is a Lean keyword). -/
structure SpeakerSegment where
  speaker : String
  start : ℚ
  stop : ℚ
  confidence : ℚ
deriving DecidableEq

/-- A transcript segment as delivered by the transcription collaborator:
keys `start`, `end` (here `stop`) and `text`. -/
structure WhisperSegment where
  start : ℚ
  stop : ℚ
  text : String
deriving DecidableEq

/-- An aligned segment dict as built by `_align_segments`. -/
structure AlignedSegment where
  speaker : String
  start : ℚ
  stop : ℚ
  text : String
  confidence : ℚ
deriving DecidableEq

/-- A per-speaker transcript entry as built by `_aggregate_by_speaker`
(mono path) or `_process_stereo` (stereo path). The `role` key is
absent (`none`) unless the stereo path sets it. -/
structure SpeakerTranscript where
  speaker : String
  role : Option String
  text : String
  duration : ℚ
  word_count : ℕ
  segments : List AlignedSegment
deriving DecidableEq

/-- The role-mapping dict produced by `_infer_roles` or the stereo
path. Keys that a branch does not set are `none`. -/
structure RoleMapping where
  operator : Option String
  client : Option String
  confidence : ℚ
  strategy : String
  uncertain : Option Bool
  notes : Option String
deriving DecidableEq

/-- The speaking-balance dict produced by `_compute_speaking_balance`. -/
structure SpeakingBalance where
  operator_percentage : ℚ
  client_percentage : ℚ
  operator_words : Option ℕ
  client_words : Option ℕ
  unit : Option String
  balance_quality : String
  note : Option String
deriving DecidableEq

/-- The per-role sentiment dict produced by `_sentiment_for_roles`;
`α` is the collaborator's verdict type. The empty dict returned when no
analyzer is configured is modelled as all-`none`. -/
structure SentimentByRole (α : Type) where
  operator : Option α
  client : Option α
  overall : Option α

/- ===== LightweightDiarizer ===== -/

/-- Mutable state of the frame scan in `LightweightDiarizer.diarize`. -/
structure ScanState where
  segments : List SpeakerSegment
  active : Bool
  start_frame : ℕ
  last_active_frame : ℕ

/-- `LightweightDiarizer._build_segment`: convert a frame span to
seconds and label it by the parity of the number of segments already
emitted. -/
def build_segment (start_frame end_frame : ℕ) (hop_length sr : ℕ) (idx : ℕ) : SpeakerSegment :=
  { speaker := if idx % 2 = 0 then "speaker_1" else "speaker_2",
    start := ((start_frame * hop_length : ℕ) : ℚ) / (sr : ℚ),
    stop := (((end_frame + 1) * hop_length : ℕ) : ℚ) / (sr : ℚ),
    confidence := 0.5 }

/-- One iteration of the `for idx, energy in enumerate(rms_norm)` loop
in `diarize`, with the three `if` statements in source order. -/
def scanStep (threshold : ℚ) (hop_length sr : ℕ) (st : ScanState) (ie : ℕ × ℚ) : ScanState :=
  let idx := ie.1
  let energy := ie.2
  let st1 := if threshold ≤ energy ∧ st.active = false then
      { st with active := true, start_frame := idx } else st
  let st2 := if threshold ≤ energy then { st1 with last_active_frame := idx } else st1
  if energy < threshold ∧ st2.active = true then
    { st2 with
      segments := st2.segments ++
        [build_segment st2.start_frame st2.last_active_frame hop_length sr st2.segments.length],
      active := false }
  else st2

/-- The frame scan of `diarize`: the enumeration loop followed by the
trailing `if active` emission.  The frame-energy sequence and the
adaptive threshold (`max(0.5 * mean(rms_norm), 0.05)`) are parameters:
they are computed upstream from the signal by `librosa`, outside the
algorithmic content modelled here. -/
def diarizeScan (threshold : ℚ) (hop_length sr : ℕ) (energies : List ℚ) : List SpeakerSegment :=
  let final := (energies.enum).foldl (scanStep threshold hop_length sr) ⟨[], false, 0, 0⟩
  if final.active then
    final.segments ++
      [build_segment final.start_frame final.last_active_frame hop_length sr final.segments.length]
  else final.segments

/-- `LightweightDiarizer.diarize`: the frame scan plus the fallback to a
single full-clip `speaker_1` segment (confidence 0.2) when the scan
emitted nothing.  `n_samples` is `len(y)`, so the clip duration is
`n_samples / sr`. -/
def diarize (threshold : ℚ) (hop_length sr n_samples : ℕ) (energies : List ℚ) : List SpeakerSegment :=
  let segs := diarizeScan threshold hop_length sr energies
  if segs.isEmpty then
    [{ speaker := "speaker_1", start := 0, stop := ((n_samples : ℕ) : ℚ) / (sr : ℚ),
       confidence := 0.2 }]
  else segs

/- Spec-side two-state scan machine (from the spec's words, for the
refinement theorem of the diarizer): `inactive → active` on the first
frame at/above threshold recording the start; while active track the
last at/above-threshold frame; `active → inactive` on a frame below
threshold emitting `[start, lastActive]`; a trailing span is emitted if
still active at end of stream. -/

/-- Spec-side scan machine over frames, returning the emitted
`(startFrame, lastActiveFrame)` spans in emission order.  The option
argument is `none` when inactive and `some (start, lastActive)` when
active. -/
def specScan (threshold : ℚ) : ℕ → Option (ℕ × ℕ) → List ℚ → List (ℕ × ℕ)
  | _, none, [] => []
  | _, some sl, [] => [sl]
  | idx, none, e :: rest =>
    if threshold ≤ e then specScan threshold (idx + 1) (some (idx, idx)) rest
    else specScan threshold (idx + 1) none rest
  | idx, some sl, e :: rest =>
    if threshold ≤ e then specScan threshold (idx + 1) (some (sl.1, idx)) rest
    else sl :: specScan threshold (idx + 1) none rest

/-- Spec-side rendering of the `k`-th emitted span: seconds conversion
`[startFrame * hop / sr, (lastActiveFrame + 1) * hop / sr]`, fixed
confidence 0.5, and strict label alternation by emission-order parity. -/
def specSegmentOf (hop_length sr : ℕ) (k : ℕ) (sl : ℕ × ℕ) : SpeakerSegment :=
  { speaker := if k % 2 = 0 then "speaker_1" else "speaker_2",
    start := ((sl.1 * hop_length : ℕ) : ℚ) / (sr : ℚ),
    stop := (((sl.2 + 1) * hop_length : ℕ) : ℚ) / (sr : ℚ),
    confidence := 0.5 }

/-- Label the spans of the spec machine starting at emission index `n`. -/
def labelSpans (hop_length sr : ℕ) : ℕ → List (ℕ × ℕ) → List SpeakerSegment
  | _, [] => []
  | n, sl :: rest => specSegmentOf hop_length sr n sl :: labelSpans hop_length sr (n + 1) rest

/-- The segment list the spec's machine prescribes for a frame-energy
sequence. -/
def specSegments (threshold : ℚ) (hop_length sr : ℕ) (energies : List ℚ) : List SpeakerSegment :=
  labelSpans hop_length sr 0 (specScan threshold 0 none energies)

/- ===== SpeakerRoleAnalyzer: alignment ===== -/

/-- Midpoint of a transcript segment, `(start + end) / 2`. -/
def midpointOf (ws : WhisperSegment) : ℚ := (ws.start + ws.stop) / 2

/-- Body of the `_align_segments` loop for one transcript segment:
first diarized segment whose closed interval contains the midpoint,
else the `speaker_1` / 0.3 fallback. -/
def align_one (diar_segments : List SpeakerSegment) (ws : WhisperSegment) : AlignedSegment :=
  let midpoint := midpointOf ws
  match diar_segments.find? (fun ds => decide (ds.start ≤ midpoint) && decide (midpoint ≤ ds.stop)) with
  | some ds =>
    { speaker := ds.speaker, start := ws.start, stop := ws.stop, text := ws.text,
      confidence := ds.confidence }
  | none =>
    { speaker := "speaker_1", start := ws.start, stop := ws.stop, text := ws.text,
      confidence := 0.3 }

/-- `SpeakerRoleAnalyzer._align_segments`. -/
def align_segments (whisper_segments : List WhisperSegment)
    (diar_segments : List SpeakerSegment) : List AlignedSegment :=
  whisper_segments.map (align_one diar_segments)

/-- Spec-side predicate: the diarized segment's closed interval
`[start, end]` contains the midpoint `m`. -/
def containsMid (ds : SpeakerSegment) (m : ℚ) : Prop := ds.start ≤ m ∧ m ≤ ds.stop

instance (ds : SpeakerSegment) (m : ℚ) : Decidable (containsMid ds m) := by
  unfold containsMid; infer_instance

/- ===== SpeakerRoleAnalyzer: aggregation ===== -/

/-- Mutation of a bucket entry by one aligned segment: append the
stripped fragment plus one space, accumulate `max(end - start, 0)`, and
record the member segment. -/
def accumulateSeg (entry : SpeakerTranscript) (seg : AlignedSegment) : SpeakerTranscript :=
  { entry with
    text := entry.text ++ pyStrip seg.text ++ " ",
    duration := entry.duration + max (seg.stop - seg.start) 0,
    segments := entry.segments ++ [seg] }

/-- The dict created by `bucket.setdefault(speaker, {...})`. -/
def freshEntry (speaker : String) : SpeakerTranscript :=
  { speaker := speaker, role := none, text := "", duration := 0, word_count := 0, segments := [] }

/-- One iteration of the bucketing loop of `_aggregate_by_speaker`:
Python dicts keep insertion order, so a new key is appended at the end
and an existing key is updated in place. -/
def addToBucket (bucket : List SpeakerTranscript) (seg : AlignedSegment) : List SpeakerTranscript :=
  if bucket.any (fun e => e.speaker == seg.speaker) then
    bucket.map (fun e => if e.speaker == seg.speaker then accumulateSeg e seg else e)
  else
    bucket ++ [accumulateSeg (freshEntry seg.speaker) seg]

/-- The normalization pass of `_aggregate_by_speaker`: strip the
accumulated text and recompute the word count from the final text. -/
def finalizeEntry (entry : SpeakerTranscript) : SpeakerTranscript :=
  { entry with text := pyStrip entry.text, word_count := (pySplit (pyStrip entry.text)).length }

/-- `SpeakerRoleAnalyzer._aggregate_by_speaker`. -/
def aggregate_by_speaker (aligned_segments : List AlignedSegment) : List SpeakerTranscript :=
  (aligned_segments.foldl addToBucket []).map finalizeEntry

/-- Spec-side text for one group, following the spec's words:
"concatenate non-empty text fragments with a single separating space,
then trim". -/
def join_nonempty_trimmed (fragments : List String) : String :=
  pyJoin " " ((fragments.map pyStrip).filter (fun s => s ≠ ""))

/-- First-appearance order of the values of a list, given the values
already seen. -/
def firstOccurAux (seen : List String) : List String → List String
  | [] => []
  | x :: xs => if x ∈ seen then firstOccurAux seen xs else x :: firstOccurAux (x :: seen) xs

/-- Distinct values of a list in first-appearance order (the key order
of a Python dict filled by `setdefault`). -/
def firstOccur (xs : List String) : List String := firstOccurAux [] xs

/- ===== SpeakerRoleAnalyzer: role inference ===== -/

/-- `SpeakerRoleAnalyzer.OPERATOR_CUES`. -/
def OPERATOR_CUES : List String :=
  ["lo llamo de", "buenos dias", "buenos días", "mi nombre es", "habla con",
   "en que puedo ayudar", "soy del"]

/-- `SpeakerRoleAnalyzer.CLIENT_CUES`. -/
def CLIENT_CUES : List String :=
  ["no puedo pagar", "estoy sin trabajo", "necesito ayuda", "no me cobraron bien",
   "no tengo dinero", "no estoy de acuerdo"]

/-- The score the `_infer_roles` loop computes for the entry at
position `idx`: 0, plus 0.3 for the first entry, plus 0.2 per operator
cue contained in the lowercased text, minus 0.2 per client cue
contained in it. -/
def entryScore (idx : ℕ) (entry : SpeakerTranscript) : ℚ :=
  (if idx = 0 then (0.3 : ℚ) else 0)
    + ((OPERATOR_CUES.countP (fun cue => strContains (pyLower entry.text) cue) : ℕ) : ℚ) * 0.2
    - ((CLIENT_CUES.countP (fun cue => strContains (pyLower entry.text) cue) : ℕ) : ℚ) * 0.2

/-- `scores[key] = value` on an insertion-ordered dict modelled as an
association list. -/
def dictInsert (d : List (String × ℚ)) (k : String) (v : ℚ) : List (String × ℚ) :=
  if d.any (fun p => p.1 == k) then d.map (fun p => if p.1 == k then (k, v) else p)
  else d ++ [(k, v)]

/-- The `scores` dict built by the enumeration loop of `_infer_roles`. -/
def scoresOf (transcript_by_speaker : List SpeakerTranscript) : List (String × ℚ) :=
  (transcript_by_speaker.enum).foldl
    (fun acc p => dictInsert acc p.2.speaker (entryScore p.1 p.2)) []

/-- The comparison used by `sorted(scores.items(), key=lambda x: x[1],
reverse=True)`: descending by score. -/
def descByScore : String × ℚ → String × ℚ → Bool := fun a b => decide (b.2 ≤ a.2)

/-- Spec-side score list: the speaker of each entry paired with its
positional/cue score (equal to the `scores` dict when the speakers are
distinct). -/
def score_pairs (transcript_by_speaker : List SpeakerTranscript) : List (String × ℚ) :=
  (transcript_by_speaker.enum).map (fun p => (p.2.speaker, entryScore p.1 p.2))

/-- `SpeakerRoleAnalyzer._infer_roles`.  The final wildcard branch is
unreachable for a nonempty input (the dict then has at least one key);
in the source it would be an uncaught `IndexError`. -/
def infer_roles (transcript_by_speaker : List SpeakerTranscript) : RoleMapping :=
  if transcript_by_speaker.isEmpty then
    { operator := none, client := none, confidence := 0, strategy := "no_data",
      uncertain := none, notes := none }
  else
    let scores := scoresOf transcript_by_speaker
    if scores.length = 1 then
      { operator := scores.head?.map (fun p => p.1), client := none, confidence := 0.4,
        strategy := "single_speaker", uncertain := none,
        notes := some "Solo se detectó un hablante" }
    else
      match scores.mergeSort descByScore with
      | op :: cl :: _ =>
        let confidence := min (max (op.2 - cl.2) 0.2) 0.95
        { operator := some op.1, client := some cl.1, confidence := confidence,
          strategy := "cue_and_order", uncertain := some (decide (confidence < 0.5)),
          notes := none }
      | _ =>
        { operator := none, client := none, confidence := 0, strategy := "no_data",
          uncertain := none, notes := none }

/- ===== SpeakerRoleAnalyzer: balance, labeled transcript, sentiment ===== -/

/-- `entry.get("role") or entry.get("speaker")`: the role when present
and truthy, else the speaker label. -/
def roleOf (entry : SpeakerTranscript) : String :=
  match entry.role with
  | some r => if r = "" then entry.speaker else r
  | none => entry.speaker

/-- The zeroed balance returned by the `total == 0` branch of
`_compute_speaking_balance`. -/
def no_data_balance : SpeakingBalance :=
  { operator_percentage := 0, client_percentage := 0, operator_words := none,
    client_words := none, unit := none, balance_quality := "SIN_DATOS",
    note := some "sin palabras" }

/-- One iteration of the word-tallying loop of
`_compute_speaking_balance`. -/
def tallyWords (acc : ℕ × ℕ) (entry : SpeakerTranscript) : ℕ × ℕ :=
  if roleOf entry = "operator" then (acc.1 + entry.word_count, acc.2)
  else if roleOf entry = "client" then (acc.1, acc.2 + entry.word_count)
  else acc

/-- `SpeakerRoleAnalyzer._compute_speaking_balance`. -/
def compute_speaking_balance (transcript_by_speaker : List SpeakerTranscript) : SpeakingBalance :=
  let tally := transcript_by_speaker.foldl tallyWords (0, 0)
  let operator_words := tally.1
  let client_words := tally.2
  let total := operator_words + client_words
  if total = 0 then no_data_balance
  else
    let operator_pct := ((operator_words : ℕ) : ℚ) / ((total : ℕ) : ℚ) * 100
    let client_pct := ((client_words : ℕ) : ℚ) / ((total : ℕ) : ℚ) * 100
    { operator_percentage := operator_pct, client_percentage := client_pct,
      operator_words := some operator_words, client_words := some client_words,
      unit := some "porcentaje",
      balance_quality := if 35 ≤ operator_pct ∧ operator_pct ≤ 55 then "BUENO"
        else "DESBALANCEADO",
      note := none }

/-- Spec-side word sum of the entries carrying the given role. -/
def roleWordSum (transcript_by_speaker : List SpeakerTranscript) (role : String) : ℕ :=
  (((transcript_by_speaker.filter (fun e => roleOf e = role)).map
    (fun e => e.word_count))).sum

/-- One line of `_build_labeled_transcript`: skip an entry with empty
stripped text, else emit the bracketed upper-cased role label and the
stripped text. -/
def labeled_line (entry : SpeakerTranscript) : Option String :=
  let text := pyStrip entry.text
  if text = "" then none
  else some ("[" ++ pyUpper (roleOf entry) ++ "] " ++ text)

/-- `SpeakerRoleAnalyzer._build_labeled_transcript`. -/
def build_labeled_transcript (transcript_by_speaker : List SpeakerTranscript) : String :=
  pyStrip (pyJoin "\n" (transcript_by_speaker.filterMap labeled_line))

/-- `SpeakerRoleAnalyzer._sentiment_for_roles`, instrumented with the
list of texts handed to `analyze_text`, in call order.  With no
analyzer configured the source returns an empty dict, modelled as
all-`none` with no calls. -/
def sentiment_for_roles {α : Type} (analyzer : Option (String → α))
    (transcript_by_speaker : List SpeakerTranscript) (combined_text : String) :
    SentimentByRole α × List String :=
  match analyzer with
  | none => ({ operator := none, client := none, overall := none }, [])
  | some analyze_text =>
    let operator_text := pyJoin " "
      ((transcript_by_speaker.filter (fun e => e.role == some "operator")).map (fun e => e.text))
    let client_text := pyJoin " "
      ((transcript_by_speaker.filter (fun e => e.role == some "client")).map (fun e => e.text))
    ({ operator := if operator_text = "" then none else some (analyze_text operator_text),
       client := if client_text = "" then none else some (analyze_text client_text),
       overall := some (analyze_text combined_text) },
     (if operator_text = "" then [] else [operator_text]) ++
       (if client_text = "" then [] else [client_text]) ++ [combined_text])

/- ===== SpeakerRoleAnalyzer: facade ===== -/

/-- Observable effects of one `process_audio` call. -/
inductive Event where
  | tempCreated (path : String)
  | tempDeleted (path : String)
  | transcribeCall (path : String) (with_segments : Bool)
  | diarizeCall
  | alignCall
  | inferRolesCall
  | sentimentCall (text : String)
deriving DecidableEq

/-- Result of `transcriber.transcribe_file`; keys the engine may omit
are `Option`s. -/
structure TxResult where
  text : Option String
  language : Option String
  duration : Option ℚ
  segments : List WhisperSegment

/-- The inputs of one facade call: the audio profile, the collaborator
functions, the temporary file names `tempfile` would pick, and the
signal-derived quantities the diarizer consumes (frame energies,
adaptive threshold, hop length, sample rate, sample count). -/
structure PipelineInput (α : Type) where
  profile : AudioProfile
  audio_path : String
  left_name : String
  right_name : String
  transcribe : String → Bool → TxResult
  analyzer : Option (String → α)
  model_name : String
  device : String
  energies : List ℚ
  threshold : ℚ
  hop_length : ℕ
  sr : ℕ
  n_samples : ℕ

/-- The `transcript_result` dict assembled by either path. -/
structure TranscriptResult (α : Type) where
  filename : String
  text : String
  language : String
  duration : ℚ
  model_used : String
  device_used : String
  char_count : ℕ
  segments : List AlignedSegment
  transcript_by_speaker : List SpeakerTranscript
  role_mapping : RoleMapping
  speaking_balance : SpeakingBalance
  sentiment_by_role : SentimentByRole α

/-- The `speaker_summary` dict built by `_build_speaker_summary`. -/
structure SpeakerSummary (α : Type) where
  speakers : List SpeakerTranscript
  role_mapping : RoleMapping
  sentiment_by_role : SentimentByRole α
  speaking_balance : SpeakingBalance
  audio_profile : AudioProfile

/-- The dict returned by `process_audio`. -/
structure ProcessResult (α : Type) where
  transcript : TranscriptResult α
  audio_profile : AudioProfile
  speaker_summary : SpeakerSummary α

/-- The stereo `language` merge
`operator_tx.get("language", "es") or client_tx.get("language", "es")`. -/
def mergeLanguage (op_lang cl_lang : Option String) : String :=
  let l1 := op_lang.getD "es"
  if l1 = "" then cl_lang.getD "es" else l1

/-- `SpeakerRoleAnalyzer._process_stereo`, with its event trace.
`split_stereo_channels` creates the two temporary channel files
(`NamedTemporaryFile(delete=False)`); no statement of the source ever
deletes them, so the trace contains no `tempDeleted` event. -/
def process_stereo {α : Type} (inp : PipelineInput α) : ProcessResult α × List Event :=
  let left_path := inp.left_name
  let right_path := inp.right_name
  let operator_tx := inp.transcribe left_path false
  let client_tx := inp.transcribe right_path false
  let operator_entry : SpeakerTranscript :=
    { speaker := "channel_left", role := some "operator", text := operator_tx.text.getD "",
      duration := operator_tx.duration.getD (inp.profile.duration_seconds / 2),
      word_count := (pySplit (operator_tx.text.getD "")).length, segments := [] }
  let client_entry : SpeakerTranscript :=
    { speaker := "channel_right", role := some "client", text := client_tx.text.getD "",
      duration := client_tx.duration.getD (inp.profile.duration_seconds / 2),
      word_count := (pySplit (client_tx.text.getD "")).length, segments := [] }
  let transcript_by_speaker := [operator_entry, client_entry]
  let combined_text := build_labeled_transcript transcript_by_speaker
  let role_mapping : RoleMapping :=
    { operator := some "channel_left", client := some "channel_right", confidence := 0.95,
      strategy := "stereo_channel_mapping", uncertain := none,
      notes := some "Canal izquierdo forzado a operador por policy" }
  let sentiment := sentiment_for_roles inp.analyzer transcript_by_speaker combined_text
  let speaking_balance := compute_speaking_balance transcript_by_speaker
  let transcript_result : TranscriptResult α :=
    { filename := pyBasename inp.audio_path, text := combined_text,
      language := mergeLanguage operator_tx.language client_tx.language,
      duration := inp.profile.duration_seconds, model_used := inp.model_name,
      device_used := inp.device, char_count := combined_text.data.length, segments := [],
      transcript_by_speaker := transcript_by_speaker, role_mapping := role_mapping,
      speaking_balance := speaking_balance, sentiment_by_role := sentiment.1 }
  ({ transcript := transcript_result, audio_profile := inp.profile,
     speaker_summary :=
       { speakers := transcript_by_speaker, role_mapping := role_mapping,
         sentiment_by_role := sentiment.1,
         speaking_balance := compute_speaking_balance transcript_by_speaker,
         audio_profile := inp.profile } },
   [Event.tempCreated left_path, Event.tempCreated right_path,
    Event.transcribeCall left_path false, Event.transcribeCall right_path false] ++
     sentiment.2.map Event.sentimentCall)

/-- `SpeakerRoleAnalyzer._process_mono`, with its event trace. -/
def process_mono {α : Type} (inp : PipelineInput α) : ProcessResult α × List Event :=
  let diar_segments := diarize inp.threshold inp.hop_length inp.sr inp.n_samples inp.energies
  let whisper_result := inp.transcribe inp.audio_path true
  let aligned_segments := align_segments whisper_result.segments diar_segments
  let transcript_by_speaker := aggregate_by_speaker aligned_segments
  let role_mapping := infer_roles transcript_by_speaker
  let combined_text := build_labeled_transcript transcript_by_speaker
  let sentiment := sentiment_for_roles inp.analyzer transcript_by_speaker combined_text
  let speaking_balance := compute_speaking_balance transcript_by_speaker
  let transcript_result : TranscriptResult α :=
    { filename := pyBasename inp.audio_path, text := combined_text,
      language := whisper_result.language.getD "es",
      duration := whisper_result.duration.getD inp.profile.duration_seconds,
      model_used := inp.model_name, device_used := inp.device,
      char_count := combined_text.data.length, segments := aligned_segments,
      transcript_by_speaker := transcript_by_speaker, role_mapping := role_mapping,
      speaking_balance := speaking_balance, sentiment_by_role := sentiment.1 }
  ({ transcript := transcript_result, audio_profile := inp.profile,
     speaker_summary :=
       { speakers := transcript_by_speaker, role_mapping := role_mapping,
         sentiment_by_role := sentiment.1,
         speaking_balance := compute_speaking_balance transcript_by_speaker,
         audio_profile := inp.profile } },
   [Event.diarizeCall, Event.transcribeCall inp.audio_path true, Event.alignCall,
    Event.inferRolesCall] ++ sentiment.2.map Event.sentimentCall)

/-- `SpeakerRoleAnalyzer.process_audio`: route on `profile.is_stereo`. -/
def process_audio {α : Type} (inp : PipelineInput α) : ProcessResult α × List Event :=
  if inp.profile.is_stereo then process_stereo inp else process_mono inp

/-- The path of a `tempCreated` event. -/
def createdPath : Event → Option String
  | Event.tempCreated p => some p
  | _ => none

/-- Temporary files created during a trace and never deleted in it. -/
def leaked_temp_files (events : List Event) : List String :=
  (events.filterMap createdPath).filter (fun p => !(events.contains (Event.tempDeleted p)))

/- ===== Proof infrastructure definitions ===== -/

/-- The scan state corresponding to a spec-machine configuration:
`none` maps to inactive, `some (start, lastActive)` to active with the
recorded frames; the frame registers of an inactive state are the stale
values `s` and `l`. -/
def stOf (segs : List SpeakerSegment) (cur : Option (ℕ × ℕ)) (s l : ℕ) : ScanState :=
  match cur with
  | none => ⟨segs, false, s, l⟩
  | some sl => ⟨segs, true, sl.1, sl.2⟩

/-- The trailing emission after the frame loop of `diarize`. -/
def scanFinish (hop_length sr : ℕ) (st : ScanState) : List SpeakerSegment :=
  if st.active then
    st.segments ++
      [build_segment st.start_frame st.last_active_frame hop_length sr st.segments.length]
  else st.segments

/-- Invariant of a bucket entry of `_aggregate_by_speaker` after the
segments `processed` have been folded in (before the normalization
pass): no role, text is the concatenation of the stripped fragments of
its group each followed by one space, duration is the accumulated
non-negative span sum. -/
def EntryInv (processed : List AlignedSegment) (e : SpeakerTranscript) : Prop :=
  e.role = none ∧
  e.text = concatAll ((processed.filter (fun s => s.speaker == e.speaker)).map
    (fun s => pyStrip s.text ++ " ")) ∧
  e.duration = ((processed.filter (fun s => s.speaker == e.speaker)).map
    (fun s => max (s.stop - s.start) 0)).sum ∧
  e.word_count = 0 ∧
  e.segments = processed.filter (fun s => s.speaker == e.speaker)

/-- Concrete two-speaker aggregate used to exercise the role
inferencer. -/
def twoSpeakerSample : List SpeakerTranscript :=
  [{ speaker := "a", role := none, text := "buenos dias", duration := 0, word_count := 2,
     segments := [] },
   { speaker := "b", role := none, text := "no puedo pagar", duration := 0, word_count := 3,
     segments := [] }]

/-- Concrete aligned segments of one speaker whose middle fragment is
empty. -/
def dupSpeakerSegs : List AlignedSegment :=
  [{ speaker := "s", start := 0, stop := 1, text := "a", confidence := 0.5 },
   { speaker := "s", start := 1, stop := 2, text := "", confidence := 0.5 },
   { speaker := "s", start := 2, stop := 3, text := "b", confidence := 0.5 }]

/-- Concrete role-tagged entries used to exercise the balance
computation. -/
def balanceSample : List SpeakerTranscript :=
  [{ speaker := "channel_left", role := some "operator", text := "hola", duration := 1,
     word_count := 6, segments := [] },
   { speaker := "channel_right", role := some "client", text := "si", duration := 1,
     word_count := 4, segments := [] }]

/-- Concrete entry whose operator text is empty, used to exercise the
sentiment aggregator. -/
def sentimentSample : List SpeakerTranscript :=
  [{ speaker := "channel_left", role := some "operator", text := "", duration := 0,
     word_count := 0, segments := [] }]

/-- Concrete stereo facade input. -/
def stereoInputSample : PipelineInput String :=
  { profile := { channels := 2, sample_rate := 8000, duration_seconds := 10, sample_width := 2,
                 frame_rate := 8000, format := ".wav" },
    audio_path := "calls/call1.wav",
    left_name := "/tmp/tmp1_left.wav", right_name := "/tmp/tmp2_right.wav",
    transcribe := fun _ _ => { text := some "hola buenos dias", language := some "es",
                               duration := some 5, segments := [] },
    analyzer := some (fun _ => "neutral"),
    model_name := "base", device := "cpu",
    energies := [], threshold := 1, hop_length := 256, sr := 16000, n_samples := 0 }

/-- Concrete mono facade input. -/
def monoInputSample : PipelineInput String :=
  { profile := { channels := 1, sample_rate := 16000, duration_seconds := 10, sample_width := 2,
                 frame_rate := 16000, format := ".wav" },
    audio_path := "calls/call2.wav",
    left_name := "/tmp/tmp3_left.wav", right_name := "/tmp/tmp4_right.wav",
    transcribe := fun _ _ => { text := some "hola", language := some "es",
                               duration := some 5,
                               segments := [{ start := 0, stop := 2, text := "hola" }] },
    analyzer := some (fun _ => "neutral"),
    model_name := "base", device := "cpu",
    energies := [1, 0], threshold := 1, hop_length := 256, sr := 16000, n_samples := 32000 }

/- ===================================================================
   Helper lemmas and claim theorems
   =================================================================== -/

lemma build_segment_eq_spec (a b hop_length sr k : ℕ) :
    build_segment a b hop_length sr k = specSegmentOf hop_length sr k (a, b) := rfl

lemma scan_spec_aux (threshold : ℚ) (hop_length sr : ℕ) :
    ∀ (energies : List ℚ) (idx : ℕ) (segs : List SpeakerSegment)
      (cur : Option (ℕ × ℕ)) (s l : ℕ),
      scanFinish hop_length sr
        ((List.enumFrom idx energies).foldl (scanStep threshold hop_length sr) (stOf segs cur s l))
        = segs ++ labelSpans hop_length sr segs.length (specScan threshold idx cur energies) := by
  intro energies
  induction energies with
  | nil =>
    intro idx segs cur s l
    cases cur with
    | none => simp [List.enumFrom, scanFinish, stOf, specScan, labelSpans]
    | some sl => simp [List.enumFrom, scanFinish, stOf, specScan, labelSpans]; rfl
  | cons e rest ih =>
    intro idx segs cur s l
    simp only [List.enumFrom, List.foldl_cons]
    cases cur with
    | none =>
      by_cases h : threshold ≤ e
      · have h' : ¬ e < threshold := not_lt.mpr h
        have hstep : scanStep threshold hop_length sr (stOf segs none s l) (idx, e)
            = stOf segs (some (idx, idx)) s l := by
          simp [scanStep, stOf, h, h']
        rw [hstep, ih (idx + 1) segs (some (idx, idx)) s l]
        simp [specScan, h]
      · have hstep : scanStep threshold hop_length sr (stOf segs none s l) (idx, e)
            = stOf segs none s l := by
          simp [scanStep, stOf, h]
        rw [hstep, ih (idx + 1) segs none s l]
        simp [specScan, h]
    | some sl =>
      by_cases h : threshold ≤ e
      · have h' : ¬ e < threshold := not_lt.mpr h
        have hstep : scanStep threshold hop_length sr (stOf segs (some sl) s l) (idx, e)
            = stOf segs (some (sl.1, idx)) s l := by
          simp [scanStep, stOf, h, h']
        rw [hstep, ih (idx + 1) segs (some (sl.1, idx)) s l]
        simp [specScan, h]
      · have h' : e < threshold := not_le.mp h
        have hstep : scanStep threshold hop_length sr (stOf segs (some sl) s l) (idx, e)
            = stOf (segs ++ [build_segment sl.1 sl.2 hop_length sr segs.length]) none sl.1 sl.2 := by
          simp [scanStep, stOf, h, h']
        rw [hstep, ih (idx + 1) _ none sl.1 sl.2]
        simp [specScan, h, labelSpans, build_segment_eq_spec, List.append_assoc]

lemma diarizeScan_eq_specSegments (threshold : ℚ) (hop_length sr : ℕ) (energies : List ℚ) :
    diarizeScan threshold hop_length sr energies = specSegments threshold hop_length sr energies := by
  have h := scan_spec_aux threshold hop_length sr energies 0 [] none 0 0
  simpa [diarizeScan, scanFinish, stOf, specSegments, List.enum] using h

/-- C3: for every frame-energy sequence, the emission loop of
`diarize` produces exactly the segments of the spec's two-state scan
machine: a segment opens at the first at/above-threshold frame, closes
as `[startFrame, lastActiveFrame + 1]` (in seconds, via the hop length)
on the first below-threshold frame while active, a trailing segment is
emitted when still active at end of stream, and the `k`-th emitted
segment is labeled `speaker_1` for even `k` and `speaker_2` for odd
`k`. -/
theorem diarize_scan_matches_machine (threshold : ℚ) (hop_length sr : ℕ) (energies : List ℚ) :
    diarizeScan threshold hop_length sr energies = specSegments threshold hop_length sr energies :=
  diarizeScan_eq_specSegments threshold hop_length sr energies

lemma specScan_silent (threshold : ℚ) :
    ∀ (energies : List ℚ) (idx : ℕ), (∀ e ∈ energies, e < threshold) →
      specScan threshold idx none energies = [] := by
  intro energies
  induction energies with
  | nil => intro idx _; simp [specScan]
  | cons e rest ih =>
    intro idx h
    have h1 : ¬ threshold ≤ e := not_le.mpr (h e (by simp))
    simp only [specScan, if_neg h1]
    exact ih (idx + 1) (fun x hx => h x (by simp [hx]))

lemma labelSpans_confidence (hop_length sr : ℕ) :
    ∀ (spans : List (ℕ × ℕ)) (n : ℕ) (seg : SpeakerSegment),
      seg ∈ labelSpans hop_length sr n spans → seg.confidence = 0.5 := by
  intro spans
  induction spans with
  | nil => intro n seg h; simp [labelSpans] at h
  | cons sl rest ih =>
    intro n seg h
    simp only [labelSpans, List.mem_cons] at h
    rcases h with h | h
    · rw [h]; rfl
    · exact ih (n + 1) seg h

lemma labelSpans_speaker (hop_length sr : ℕ) :
    ∀ (spans : List (ℕ × ℕ)) (n : ℕ) (seg : SpeakerSegment),
      seg ∈ labelSpans hop_length sr n spans →
      seg.speaker = "speaker_1" ∨ seg.speaker = "speaker_2" := by
  intro spans
  induction spans with
  | nil => intro n seg h; simp [labelSpans] at h
  | cons sl rest ih =>
    intro n seg h
    simp only [labelSpans, List.mem_cons] at h
    rcases h with h | h
    · rw [h]
      by_cases hp : n % 2 = 0
      · left; simp [specSegmentOf, hp]
      · right; simp [specSegmentOf, hp]
    · exact ih (n + 1) seg h

/-- C4: an input whose normalized frame energies all lie below the
threshold makes the scan emit nothing, and `diarize` then returns the
single full-clip `speaker_1` segment with confidence 0.2 (the function
is total, so no exception is possible); every segment the scan itself
emits carries the fixed confidence 0.5. -/
theorem diarize_silent_fallback (threshold : ℚ) (hop_length sr n_samples : ℕ)
    (energies : List ℚ) :
    ((∀ e ∈ energies, e < threshold) →
      diarize threshold hop_length sr n_samples energies =
        [{ speaker := "speaker_1", start := 0,
           stop := ((n_samples : ℕ) : ℚ) / ((sr : ℕ) : ℚ), confidence := 0.2 }]) ∧
    (∀ seg ∈ diarizeScan threshold hop_length sr energies, seg.confidence = 0.5) := by
  constructor
  · intro h
    have hscan : diarizeScan threshold hop_length sr energies = [] := by
      rw [diarizeScan_eq_specSegments]
      unfold specSegments
      rw [specScan_silent threshold energies 0 h]
      rfl
    simp [diarize, hscan]
  · intro seg hseg
    rw [diarizeScan_eq_specSegments] at hseg
    exact labelSpans_confidence hop_length sr _ 0 seg hseg

/-- Witness for C4 at a concrete silent input. -/
theorem diarize_silent_fallback_witness :
    diarize 1 1 2 4 [0] =
      [{ speaker := "speaker_1", start := 0,
         stop := ((4 : ℕ) : ℚ) / ((2 : ℕ) : ℚ), confidence := 0.2 }] :=
  (diarize_silent_fallback 1 1 2 4 [0]).1
    (by intro e he; rw [List.mem_singleton] at he; rw [he]; exact zero_lt_one)

lemma containsMid_decide_iff (ds : SpeakerSegment) (m : ℚ) :
    (decide (ds.start ≤ m) && decide (m ≤ ds.stop)) = true ↔ containsMid ds m := by
  simp [containsMid]

lemma find?_first_characterization {α : Type} (p : α → Bool) :
    ∀ l : List α,
      (l.find? p = none ∧ ∀ x ∈ l, ¬ p x = true) ∨
      (∃ j : ℕ, ∃ hj : j < l.length, l.find? p = some (l.get ⟨j, hj⟩) ∧
        p (l.get ⟨j, hj⟩) = true ∧
        ∀ (k : ℕ) (hk : k < l.length), k < j → ¬ p (l.get ⟨k, hk⟩) = true) := by
  intro l
  induction l with
  | nil => left; simp
  | cons a l ih =>
    by_cases hpa : p a = true
    · right
      refine ⟨0, by simp, ?_, ?_, ?_⟩
      · rw [List.find?_cons_of_pos l hpa]; rfl
      · exact hpa
      · intro k hk hk0; omega
    · rcases ih with ⟨hn, hall⟩ | ⟨j, hj, h1, h2, h3⟩
      · left
        constructor
        · rw [List.find?_cons_of_neg l hpa]; exact hn
        · intro x hx
          rcases List.mem_cons.mp hx with h | h
          · rw [h]; exact hpa
          · exact hall x h
      · right
        refine ⟨j + 1, by simpa using Nat.succ_lt_succ hj, ?_, ?_, ?_⟩
        · rw [List.find?_cons_of_neg l hpa, List.get_cons_succ]; exact h1
        · rw [List.get_cons_succ]; exact h2
        · intro k hk hkj
          cases k with
          | zero => simpa using hpa
          | succ k' =>
            rw [List.get_cons_succ]
            exact h3 k' (by simpa using hk) (by omega)

/-- C5: `_align_segments` is a total, order-preserving map over the
transcript segments; each output copies the input's start, end and
text, and takes the speaker and confidence of the first diarized
segment whose closed interval contains the input's midpoint, falling
back to `speaker_1` with confidence 0.3 when no diarized segment
contains it. -/
theorem align_segments_midpoint_spec (whisper_segments : List WhisperSegment)
    (diar_segments : List SpeakerSegment) :
    (align_segments whisper_segments diar_segments).length = whisper_segments.length ∧
    ∀ (i : ℕ) (h : i < whisper_segments.length)
      (h2 : i < (align_segments whisper_segments diar_segments).length),
      ((align_segments whisper_segments diar_segments).get ⟨i, h2⟩).start
          = (whisper_segments.get ⟨i, h⟩).start ∧
      ((align_segments whisper_segments diar_segments).get ⟨i, h2⟩).stop
          = (whisper_segments.get ⟨i, h⟩).stop ∧
      ((align_segments whisper_segments diar_segments).get ⟨i, h2⟩).text
          = (whisper_segments.get ⟨i, h⟩).text ∧
      ((∃ j : ℕ, ∃ hj : j < diar_segments.length,
          containsMid (diar_segments.get ⟨j, hj⟩)
            (midpointOf (whisper_segments.get ⟨i, h⟩)) ∧
          (∀ (k : ℕ) (hk : k < diar_segments.length), k < j →
            ¬ containsMid (diar_segments.get ⟨k, hk⟩)
              (midpointOf (whisper_segments.get ⟨i, h⟩))) ∧
          ((align_segments whisper_segments diar_segments).get ⟨i, h2⟩).speaker
              = (diar_segments.get ⟨j, hj⟩).speaker ∧
          ((align_segments whisper_segments diar_segments).get ⟨i, h2⟩).confidence
              = (diar_segments.get ⟨j, hj⟩).confidence) ∨
        ((∀ d ∈ diar_segments,
            ¬ containsMid d (midpointOf (whisper_segments.get ⟨i, h⟩))) ∧
          ((align_segments whisper_segments diar_segments).get ⟨i, h2⟩).speaker = "speaker_1" ∧
          ((align_segments whisper_segments diar_segments).get ⟨i, h2⟩).confidence = 0.3)) := by
  constructor
  · simp [align_segments]
  · intro i h h2
    have hget : (align_segments whisper_segments diar_segments).get ⟨i, h2⟩
        = align_one diar_segments (whisper_segments.get ⟨i, h⟩) := by
      rw [List.get_eq_getElem, List.get_eq_getElem]
      exact List.getElem_map (align_one diar_segments)
    set w := whisper_segments.get ⟨i, h⟩ with hw
    rcases find?_first_characterization
        (fun ds => decide (ds.start ≤ midpointOf w) && decide (midpointOf w ≤ ds.stop))
        diar_segments with ⟨hn, hall⟩ | ⟨j, hj, h1, hp, hmin⟩
    · rw [hget]
      simp only [align_one]
      rw [hn]
      refine ⟨rfl, rfl, rfl, Or.inr ⟨?_, rfl, rfl⟩⟩
      intro d hd
      rw [← containsMid_decide_iff]
      exact hall d hd
    · rw [hget]
      simp only [align_one]
      rw [h1]
      refine ⟨rfl, rfl, rfl, Or.inl ⟨j, hj, ?_, ?_, rfl, rfl⟩⟩
      · rw [← containsMid_decide_iff]; exact hp
      · intro k hk hkj
        rw [← containsMid_decide_iff]
        exact hmin k hk hkj

/-- Witness for C5: at a concrete transcript segment and empty diarized
list, the midpoint has no containing segment and the fallback fires. -/
theorem align_segments_midpoint_spec_witness :
    ((align_segments [⟨0, 2, "hola"⟩] ([] : List SpeakerSegment)).get ⟨0, by decide⟩).speaker
      = "speaker_1" := by
  have h := (align_segments_midpoint_spec [⟨0, 2, "hola"⟩] ([] : List SpeakerSegment)).2
    0 (by decide) (by decide)
  rcases h.2.2.2 with ⟨j, hj, _⟩ | ⟨_, hs, _⟩
  · simp at hj
  · exact hs

lemma descByScore_trans (a b c : String × ℚ) (hab : descByScore a b = true)
    (hbc : descByScore b c = true) : descByScore a c = true := by
  simp only [descByScore, decide_eq_true_eq] at *
  exact le_trans hbc hab

lemma descByScore_total (a b : String × ℚ) : (descByScore a b || descByScore b a) = true := by
  simp only [descByScore, Bool.or_eq_true, decide_eq_true_eq]
  exact le_total b.2 a.2

lemma dictInsert_fresh (d : List (String × ℚ)) (k : String) (v : ℚ)
    (h : ∀ p ∈ d, p.1 ≠ k) : dictInsert d k v = d ++ [(k, v)] := by
  have hany : (d.any (fun p => p.1 == k)) = false := by
    simp only [List.any_eq_false, beq_iff_eq]
    exact h
  simp [dictInsert, hany]

lemma scores_fold_aux :
    ∀ (ts : List SpeakerTranscript) (n : ℕ) (acc : List (String × ℚ)),
      (∀ e ∈ ts, ∀ p ∈ acc, p.1 ≠ e.speaker) →
      (ts.map (fun e => e.speaker)).Nodup →
      (List.enumFrom n ts).foldl
        (fun acc2 p => dictInsert acc2 p.2.speaker (entryScore p.1 p.2)) acc
        = acc ++ (List.enumFrom n ts).map (fun p => (p.2.speaker, entryScore p.1 p.2)) := by
  intro ts
  induction ts with
  | nil => intro n acc _ _; simp [List.enumFrom]
  | cons e rest ih =>
    intro n acc hfresh hnd
    simp only [List.map_cons, List.nodup_cons] at hnd
    simp only [List.enumFrom, List.foldl_cons, List.map_cons]
    rw [dictInsert_fresh acc e.speaker (entryScore n e)
      (fun p hp => hfresh e (List.mem_cons_self e rest) p hp)]
    rw [ih (n + 1) (acc ++ [(e.speaker, entryScore n e)]) ?hfr hnd.2]
    case hfr =>
      intro x hx p hp
      rcases List.mem_append.mp hp with hp | hp
      · exact hfresh x (List.mem_cons_of_mem e hx) p hp
      · rw [List.mem_singleton] at hp
        rw [hp]
        intro heq
        apply hnd.1
        have heq' : e.speaker = x.speaker := heq
        rw [heq']
        exact List.mem_map_of_mem (fun y => y.speaker) hx
    simp [List.append_assoc]

lemma scoresOf_eq_score_pairs (ts : List SpeakerTranscript)
    (hnd : (ts.map (fun e => e.speaker)).Nodup) :
    scoresOf ts = score_pairs ts := by
  have h := scores_fold_aux ts 0 []
    (fun e _ p hp => absurd hp (List.not_mem_nil p)) hnd
  simpa [scoresOf, score_pairs, List.enum] using h

lemma score_pairs_keys (ts : List SpeakerTranscript) :
    (score_pairs ts).map (fun p => p.1) = ts.map (fun e => e.speaker) := by
  have h1 : (score_pairs ts).map (fun p => p.1)
      = (ts.enum.map Prod.snd).map (fun e => e.speaker) := by
    simp only [score_pairs, List.map_map]
    rfl
  rw [h1, List.enum_map_snd]

lemma score_pairs_length (ts : List SpeakerTranscript) :
    (score_pairs ts).length = ts.length := by
  simp [score_pairs]

/-- C1: `_infer_roles` with pairwise-distinct speakers (the shape
`_aggregate_by_speaker` produces): a single entry yields that speaker
as operator with client `null`, confidence 0.4 and strategy
`single_speaker`; with two or more entries, each speaker's score is 0
plus 0.3 for the first entry in iteration order, plus 0.2 per
operator-cue phrase contained (case-insensitively) in its text, minus
0.2 per client-cue phrase; the operator is a highest-scoring speaker,
the client a highest-scoring among the rest,
`confidence = clamp(operatorScore - clientScore, 0.2, 0.95)`, strategy
is `cue_and_order`, and `uncertain = true` exactly when
`confidence < 0.5`. -/
theorem infer_roles_cue_and_order (ts : List SpeakerTranscript)
    (hnd : (ts.map (fun e => e.speaker)).Nodup) :
    (∀ e, ts = [e] →
      infer_roles ts =
        { operator := some e.speaker, client := none, confidence := 0.4,
          strategy := "single_speaker", uncertain := none,
          notes := some "Solo se detectó un hablante" }) ∧
    (2 ≤ ts.length →
      ∃ op cl : String × ℚ,
        op ∈ score_pairs ts ∧ cl ∈ score_pairs ts ∧ op.1 ≠ cl.1 ∧
        (∀ p ∈ score_pairs ts, p.2 ≤ op.2) ∧
        (∀ p ∈ score_pairs ts, p.1 ≠ op.1 → p.2 ≤ cl.2) ∧
        infer_roles ts =
          { operator := some op.1, client := some cl.1,
            confidence := min (max (op.2 - cl.2) 0.2) 0.95,
            strategy := "cue_and_order",
            uncertain := some (decide (min (max (op.2 - cl.2) 0.2) 0.95 < 0.5)),
            notes := none } ∧
        ((infer_roles ts).uncertain = some true ↔ (infer_roles ts).confidence < 0.5)) := by
  constructor
  · intro e he
    subst he
    simp [infer_roles, scoresOf, List.enum, List.enumFrom, dictInsert]
  · intro hlen
    have hsc : scoresOf ts = score_pairs ts := scoresOf_eq_score_pairs ts hnd
    have hplen : (score_pairs ts).length = ts.length := score_pairs_length ts
    set sorted := (score_pairs ts).mergeSort descByScore with hsorted
    have hperm : sorted.Perm (score_pairs ts) := List.mergeSort_perm (score_pairs ts) descByScore
    have hslen : sorted.length = (score_pairs ts).length := hperm.length_eq
    have hs2 : 2 ≤ sorted.length := by omega
    obtain ⟨op, rest1, h1⟩ : ∃ op rest1, sorted = op :: rest1 := by
      cases hs : sorted with
      | nil => rw [hs] at hs2; simp at hs2
      | cons a t => exact ⟨a, t, rfl⟩
    obtain ⟨cl, rest2, h2⟩ : ∃ cl rest2, rest1 = cl :: rest2 := by
      cases hs : rest1 with
      | nil => rw [h1, hs] at hs2; simp at hs2
      | cons a t => exact ⟨a, t, rfl⟩
    have hsort : List.Pairwise (fun a b => descByScore a b = true) sorted :=
      List.sorted_mergeSort descByScore_trans descByScore_total (score_pairs ts)
    rw [h2] at h1
    rw [h1] at hsort hperm
    have hop_mem : op ∈ score_pairs ts := hperm.mem_iff.mp (by simp)
    have hcl_mem : cl ∈ score_pairs ts := hperm.mem_iff.mp (by simp)
    have hkeys : ((op :: cl :: rest2).map (fun p => p.1)).Nodup := by
      rw [(hperm.map (fun p => p.1)).nodup_iff, score_pairs_keys]
      exact hnd
    have hopcl : op.1 ≠ cl.1 := by
      simp only [List.map_cons, List.nodup_cons, List.mem_cons, not_or] at hkeys
      exact hkeys.1.1
    have hmax : ∀ p ∈ score_pairs ts, p.2 ≤ op.2 := by
      intro p hp
      have hp' : p ∈ op :: cl :: rest2 := hperm.mem_iff.mpr hp
      rcases List.mem_cons.mp hp' with h | h
      · rw [h]
      · have hle := (List.pairwise_cons.mp hsort).1 p h
        simpa [descByScore, decide_eq_true_eq] using hle
    have hsecond : ∀ p ∈ score_pairs ts, p.1 ≠ op.1 → p.2 ≤ cl.2 := by
      intro p hp hne
      have hp' : p ∈ op :: cl :: rest2 := hperm.mem_iff.mpr hp
      rcases List.mem_cons.mp hp' with h | h
      · exact absurd (congrArg (fun q => q.1) h) hne
      · rcases List.mem_cons.mp h with h' | h'
        · rw [h']
        · have hle := (List.pairwise_cons.mp (List.pairwise_cons.mp hsort).2).1 p h'
          simpa [descByScore, decide_eq_true_eq] using hle
    have hne_empty : ts.isEmpty = false := by
      cases ts with
      | nil => simp at hlen
      | cons a t => rfl
    have hlen_ne1 : ¬ (score_pairs ts).length = 1 := by omega
    have hresult : infer_roles ts =
        { operator := some op.1, client := some cl.1,
          confidence := min (max (op.2 - cl.2) 0.2) 0.95,
          strategy := "cue_and_order",
          uncertain := some (decide (min (max (op.2 - cl.2) 0.2) 0.95 < 0.5)),
          notes := none } := by
      simp only [infer_roles, hne_empty, Bool.false_eq_true, if_false, hsc]
      rw [if_neg hlen_ne1, ← hsorted, h1]
    refine ⟨op, cl, hop_mem, hcl_mem, hopcl, hmax, hsecond, hresult, ?_⟩
    rw [hresult]
    simp

/-- Witness for C1 at a concrete two-speaker aggregate. -/
theorem infer_roles_cue_and_order_witness :
    (twoSpeakerSample.map (fun e => e.speaker)).Nodup ∧
    (∃ op cl : String × ℚ,
      op ∈ score_pairs twoSpeakerSample ∧ cl ∈ score_pairs twoSpeakerSample ∧ op.1 ≠ cl.1 ∧
      (∀ p ∈ score_pairs twoSpeakerSample, p.2 ≤ op.2) ∧
      (∀ p ∈ score_pairs twoSpeakerSample, p.1 ≠ op.1 → p.2 ≤ cl.2) ∧
      infer_roles twoSpeakerSample =
        { operator := some op.1, client := some cl.1,
          confidence := min (max (op.2 - cl.2) 0.2) 0.95,
          strategy := "cue_and_order",
          uncertain := some (decide (min (max (op.2 - cl.2) 0.2) 0.95 < 0.5)),
          notes := none } ∧
      ((infer_roles twoSpeakerSample).uncertain = some true ↔
        (infer_roles twoSpeakerSample).confidence < 0.5)) :=
  ⟨by decide, (infer_roles_cue_and_order twoSpeakerSample (by decide)).2 (by decide)⟩

lemma concatAll_append (a b : List String) :
    concatAll (a ++ b) = concatAll a ++ concatAll b := by
  induction a with
  | nil => rfl
  | cons x xs ih =>
    show x ++ concatAll (xs ++ b) = (x ++ concatAll xs) ++ concatAll b
    rw [ih, String.append_assoc]

lemma mem_firstOccurAux (y : String) :
    ∀ (xs seen : List String), y ∈ firstOccurAux seen xs ↔ (y ∈ xs ∧ y ∉ seen) := by
  intro xs
  induction xs with
  | nil => intro seen; simp [firstOccurAux]
  | cons x xs' ih =>
    intro seen
    by_cases hx : x ∈ seen
    · simp only [firstOccurAux, if_pos hx, List.mem_cons]
      rw [ih seen]
      constructor
      · rintro ⟨h1, h2⟩; exact ⟨Or.inr h1, h2⟩
      · rintro ⟨h1 | h1, h2⟩
        · rw [h1] at h2; exact absurd hx h2
        · exact ⟨h1, h2⟩
    · simp only [firstOccurAux, if_neg hx, List.mem_cons]
      rw [ih (x :: seen)]
      simp only [List.mem_cons]
      constructor
      · rintro (h | ⟨h1, h2⟩)
        · rw [h]; exact ⟨Or.inl rfl, hx⟩
        · exact ⟨Or.inr h1, (not_or.mp h2).2⟩
      · rintro ⟨h1 | h1, h2⟩
        · exact Or.inl h1
        · by_cases hyx : y = x
          · exact Or.inl hyx
          · exact Or.inr ⟨h1, not_or.mpr ⟨hyx, h2⟩⟩

lemma firstOccurAux_append_singleton (x : String) :
    ∀ (xs seen : List String),
      firstOccurAux seen (xs ++ [x])
        = firstOccurAux seen xs ++ (if x ∈ seen ∨ x ∈ xs then [] else [x]) := by
  intro xs
  induction xs with
  | nil =>
    intro seen
    by_cases hx : x ∈ seen <;> simp [firstOccurAux, hx]
  | cons z zs ih =>
    intro seen
    have hstep : firstOccurAux seen ((z :: zs) ++ [x])
        = if z ∈ seen then firstOccurAux seen (zs ++ [x])
          else z :: firstOccurAux (z :: seen) (zs ++ [x]) := rfl
    by_cases hz : z ∈ seen
    · rw [hstep, if_pos hz, ih seen]
      have hstep2 : firstOccurAux seen (z :: zs) = firstOccurAux seen zs := by
        simp [firstOccurAux, hz]
      rw [hstep2]
      congr 1
      have hiff : (x ∈ seen ∨ x ∈ zs) ↔ (x ∈ seen ∨ x ∈ z :: zs) := by
        simp only [List.mem_cons]
        constructor
        · rintro (h | h)
          · exact Or.inl h
          · exact Or.inr (Or.inr h)
        · rintro (h | h | h)
          · exact Or.inl h
          · rw [h]; exact Or.inl hz
          · exact Or.inr h
      rw [if_congr hiff rfl rfl]
    · rw [hstep, if_neg hz, ih (z :: seen)]
      have hstep2 : firstOccurAux seen (z :: zs) = z :: firstOccurAux (z :: seen) zs := by
        simp [firstOccurAux, hz]
      rw [hstep2, List.cons_append]
      congr 2
      have hiff : (x ∈ z :: seen ∨ x ∈ zs) ↔ (x ∈ seen ∨ x ∈ z :: zs) := by
        simp only [List.mem_cons]
        tauto
      rw [if_congr hiff rfl rfl]

lemma addToBucket_inv (processed : List AlignedSegment) (bucket : List SpeakerTranscript)
    (seg : AlignedSegment)
    (hmap : bucket.map (fun e => e.speaker) = firstOccur (processed.map (fun s => s.speaker)))
    (hinv : ∀ e ∈ bucket, EntryInv processed e) :
    (addToBucket bucket seg).map (fun e => e.speaker)
        = firstOccur ((processed ++ [seg]).map (fun s => s.speaker)) ∧
    (∀ e ∈ addToBucket bucket seg, EntryInv (processed ++ [seg]) e) := by
  have hmap_single : (processed ++ [seg]).map (fun s => s.speaker)
      = processed.map (fun s => s.speaker) ++ [seg.speaker] := by simp
  by_cases hany : bucket.any (fun e => e.speaker == seg.speaker) = true
  · have hspk_mem : seg.speaker ∈ processed.map (fun s => s.speaker) := by
      rcases List.any_eq_true.mp hany with ⟨e0, he0, heq⟩
      have hm : e0.speaker ∈ bucket.map (fun e => e.speaker) :=
        List.mem_map_of_mem (fun e => e.speaker) he0
      rw [beq_iff_eq.mp heq] at hm
      rw [hmap, firstOccur] at hm
      exact ((mem_firstOccurAux seg.speaker (processed.map (fun s => s.speaker)) []).mp hm).1
    constructor
    · have hupd : (addToBucket bucket seg).map (fun e => e.speaker)
          = bucket.map (fun e => e.speaker) := by
        simp only [addToBucket, if_pos hany, List.map_map]
        apply List.map_congr_left
        intro e _
        by_cases hcase : (e.speaker == seg.speaker) = true
        · show (if e.speaker == seg.speaker then accumulateSeg e seg else e).speaker = e.speaker
          rw [if_pos hcase]
          rfl
        · show (if e.speaker == seg.speaker then accumulateSeg e seg else e).speaker = e.speaker
          rw [if_neg hcase]
      rw [hupd, hmap, hmap_single, firstOccur, firstOccur, firstOccurAux_append_singleton,
        if_pos (Or.inr hspk_mem)]
      simp
    · intro e he
      simp only [addToBucket, if_pos hany, List.mem_map] at he
      rcases he with ⟨e0, he0, heq⟩
      have hinv0 := hinv e0 he0
      by_cases hcase : (e0.speaker == seg.speaker) = true
      · rw [if_pos hcase] at heq
        subst heq
        have heqspk : e0.speaker = seg.speaker := beq_iff_eq.mp hcase
        have hsegspk : (seg.speaker == e0.speaker) = true := beq_iff_eq.mpr heqspk.symm
        unfold EntryInv at hinv0 ⊢
        refine ⟨hinv0.1, ?_, ?_, hinv0.2.2.2.1, ?_⟩
        · show e0.text ++ pyStrip seg.text ++ " " = _
          rw [hinv0.2.1]
          show _ = concatAll ((List.filter (fun s => s.speaker == e0.speaker)
            (processed ++ [seg])).map (fun s => pyStrip s.text ++ " "))
          rw [List.filter_append, List.filter_singleton, hsegspk]
          simp [concatAll_append, concatAll, String.append_assoc]
        · show e0.duration + max (seg.stop - seg.start) 0 = _
          rw [hinv0.2.2.1]
          show _ = ((List.filter (fun s => s.speaker == e0.speaker)
            (processed ++ [seg])).map (fun s => max (s.stop - s.start) 0)).sum
          rw [List.filter_append, List.filter_singleton, hsegspk]
          simp
        · show e0.segments ++ [seg] = _
          rw [hinv0.2.2.2.2]
          show _ = List.filter (fun s => s.speaker == e0.speaker) (processed ++ [seg])
          rw [List.filter_append, List.filter_singleton, hsegspk]
          rfl
      · rw [if_neg hcase] at heq
        subst heq
        have hne : (seg.speaker == e0.speaker) = false := by
          apply beq_eq_false_iff_ne.mpr
          intro h
          exact hcase (beq_iff_eq.mpr h.symm)
        unfold EntryInv at hinv0 ⊢
        refine ⟨hinv0.1, ?_, ?_, hinv0.2.2.2.1, ?_⟩ <;>
          simp [List.filter_append, List.filter_singleton, hne, hinv0.2.1, hinv0.2.2.1,
            hinv0.2.2.2.2]
  · have hanyf : bucket.any (fun e => e.speaker == seg.speaker) = false := by
      cases hb : bucket.any (fun e => e.speaker == seg.speaker) with
      | false => rfl
      | true => exact absurd hb hany
    have hnotin : ∀ e0 ∈ bucket, (e0.speaker == seg.speaker) = false := by
      intro e0 he0
      have h2 : ¬ ((e0.speaker == seg.speaker) = true) := List.any_eq_false.mp hanyf e0 he0
      simpa using h2
    have hspk_notmem : seg.speaker ∉ processed.map (fun s => s.speaker) := by
      intro hmem2
      have hIn : seg.speaker ∈ firstOccur (processed.map (fun s => s.speaker)) := by
        rw [firstOccur]
        exact (mem_firstOccurAux _ _ _).mpr ⟨hmem2, List.not_mem_nil _⟩
      rw [← hmap] at hIn
      rcases List.mem_map.mp hIn with ⟨e0, he0, heq⟩
      have hf := hnotin e0 he0
      rw [heq] at hf
      simp at hf
    constructor
    · simp only [addToBucket, if_neg hany, List.map_append, List.map_cons, List.map_nil]
      rw [hmap, firstOccur, firstOccur, firstOccurAux_append_singleton,
        if_neg (by simp [hspk_notmem])]
      rfl
    · intro e he
      simp only [addToBucket, if_neg hany, List.mem_append, List.mem_singleton] at he
      rcases he with he | he
      · have hinv0 := hinv e he
        have hne0 := hnotin e he
        have hne : (seg.speaker == e.speaker) = false := by
          apply beq_eq_false_iff_ne.mpr
          intro h
          rw [h.symm] at hne0
          simp at hne0
        unfold EntryInv at hinv0 ⊢
        refine ⟨hinv0.1, ?_, ?_, hinv0.2.2.2.1, ?_⟩ <;>
          simp [List.filter_append, List.filter_singleton, hne, hinv0.2.1, hinv0.2.2.1,
            hinv0.2.2.2.2]
      · subst he
        have hfilter : processed.filter (fun s => s.speaker == seg.speaker) = [] := by
          rw [List.filter_eq_nil_iff]
          intro s hs
          simp only [beq_iff_eq]
          intro h
          apply hspk_notmem
          rw [← h]
          exact List.mem_map_of_mem (fun s2 => s2.speaker) hs
        unfold EntryInv
        refine ⟨rfl, ?_, ?_, rfl, ?_⟩ <;>
          simp [accumulateSeg, freshEntry, List.filter_append, List.filter_singleton,
            hfilter, concatAll]

lemma aggregate_fold_general :
    ∀ (segs processed : List AlignedSegment) (bucket : List SpeakerTranscript),
      (bucket.map (fun e => e.speaker) = firstOccur (processed.map (fun s => s.speaker))) →
      (∀ e ∈ bucket, EntryInv processed e) →
      ((segs.foldl addToBucket bucket).map (fun e => e.speaker)
          = firstOccur ((processed ++ segs).map (fun s => s.speaker))) ∧
      (∀ e ∈ segs.foldl addToBucket bucket, EntryInv (processed ++ segs) e) := by
  intro segs
  induction segs with
  | nil =>
    intro processed bucket hmap hinv
    simpa using ⟨hmap, hinv⟩
  | cons seg rest ih =>
    intro processed bucket hmap hinv
    simp only [List.foldl_cons]
    have hstep := addToBucket_inv processed bucket seg hmap hinv
    have h := ih (processed ++ [seg]) (addToBucket bucket seg) hstep.1 hstep.2
    simpa [List.append_assoc] using h

lemma aggregate_props (aligned_segments : List AlignedSegment) :
    ((aggregate_by_speaker aligned_segments).map (fun e => e.speaker)
        = firstOccur (aligned_segments.map (fun s => s.speaker))) ∧
    ∀ e ∈ aggregate_by_speaker aligned_segments,
      e.role = none ∧
      e.text = pyStrip (concatAll
        ((aligned_segments.filter (fun s => s.speaker == e.speaker)).map
          (fun s => pyStrip s.text ++ " "))) ∧
      e.duration = ((aligned_segments.filter (fun s => s.speaker == e.speaker)).map
        (fun s => max (s.stop - s.start) 0)).sum ∧
      0 ≤ e.duration ∧
      e.word_count = (pySplit e.text).length := by
  have hfold := aggregate_fold_general aligned_segments [] []
    (by simp [firstOccur, firstOccurAux]) (by intro e he; simp at he)
  simp only [List.nil_append] at hfold
  constructor
  · have hcomp : (aggregate_by_speaker aligned_segments).map (fun e => e.speaker)
        = (aligned_segments.foldl addToBucket []).map (fun e => e.speaker) := by
      simp only [aggregate_by_speaker, List.map_map]
      apply List.map_congr_left
      intro e _
      rfl
    rw [hcomp, hfold.1]
  · intro e he
    simp only [aggregate_by_speaker, List.mem_map] at he
    rcases he with ⟨e0, he0, heq⟩
    have hinv0 := hfold.2 e0 he0
    unfold EntryInv at hinv0
    subst heq
    have hspk : (finalizeEntry e0).speaker = e0.speaker := rfl
    refine ⟨hinv0.1, ?_, ?_, ?_, rfl⟩
    · show pyStrip e0.text = _
      rw [hinv0.2.1, hspk]
    · show e0.duration = _
      rw [hinv0.2.2.1, hspk]
    · show (0 : ℚ) ≤ e0.duration
      rw [hinv0.2.2.1]
      apply List.sum_nonneg
      intro x hx
      rcases List.mem_map.mp hx with ⟨s, _, hs⟩
      rw [← hs]
      exact le_max_right _ _

/-- C6 counterexample: for a group whose middle fragment is empty, the
source's text (stripped fragments each followed by one space, then
trimmed) keeps a double interior space, so it differs from the claimed
join of the non-empty trimmed fragments by single spaces. -/
theorem aggregate_text_counterexample :
    (aggregate_by_speaker dupSpeakerSegs).map (fun e => e.text) = ["a  b"] ∧
    join_nonempty_trimmed (dupSpeakerSegs.map (fun s => s.text)) = "a b" ∧
    ("a  b" : String) ≠ "a b" :=
  ⟨by decide, by decide, by decide⟩

/-- C6 (amended): `_aggregate_by_speaker` returns one entry per
distinct speaker in first-appearance order; each entry's text is the
concatenation over its group of the trimmed fragment plus one
separating space, finally trimmed (so an interior empty fragment
contributes an extra space); duration is the sum of
`max(end - start, 0)` over the group, hence non-negative; and
word_count is the whitespace-token count of the final trimmed text. -/
theorem aggregate_by_speaker_amended (aligned_segments : List AlignedSegment) :
    ((aggregate_by_speaker aligned_segments).map (fun e => e.speaker)
        = firstOccur (aligned_segments.map (fun s => s.speaker))) ∧
    ∀ e ∈ aggregate_by_speaker aligned_segments,
      e.role = none ∧
      e.text = pyStrip (concatAll
        ((aligned_segments.filter (fun s => s.speaker == e.speaker)).map
          (fun s => pyStrip s.text ++ " "))) ∧
      e.duration = ((aligned_segments.filter (fun s => s.speaker == e.speaker)).map
        (fun s => max (s.stop - s.start) 0)).sum ∧
      0 ≤ e.duration ∧
      e.word_count = (pySplit e.text).length :=
  aggregate_props aligned_segments

/-- Witness for C6 (amended) at the concrete aggregated entry. -/
theorem aggregate_by_speaker_amended_witness :
    ((aggregate_by_speaker dupSpeakerSegs).head (by decide)).role = none ∧
    ((aggregate_by_speaker dupSpeakerSegs).head (by decide)).word_count
      = (pySplit ((aggregate_by_speaker dupSpeakerSegs).head (by decide)).text).length := by
  have h := (aggregate_by_speaker_amended dupSpeakerSegs).2 _
    (List.head_mem (by decide))
  exact ⟨h.1, h.2.2.2.2⟩

lemma tally_fold_eq :
    ∀ (ts : List SpeakerTranscript) (acc : ℕ × ℕ),
      ts.foldl tallyWords acc
        = (acc.1 + roleWordSum ts "operator", acc.2 + roleWordSum ts "client") := by
  intro ts
  induction ts with
  | nil => intro acc; simp [roleWordSum]
  | cons e rest ih =>
    intro acc
    simp only [List.foldl_cons]
    rw [ih]
    by_cases h1 : roleOf e = "operator"
    · have h2 : ¬ roleOf e = "client" := by rw [h1]; decide
      simp [tallyWords, roleWordSum, h1, h2, List.filter_cons, Prod.ext_iff]
      omega
    · by_cases h2 : roleOf e = "client"
      · simp [tallyWords, roleWordSum, h1, h2, List.filter_cons, Prod.ext_iff]
        omega
      · simp [tallyWords, roleWordSum, h1, h2, List.filter_cons]

/-- C7 counterexample: the zero-total classification literal of
`_compute_speaking_balance` is the Spanish `"SIN_DATOS"`, not the
claimed `"no_data"` (likewise `"BUENO"`/`"DESBALANCEADO"` rather than
`"balanced"`/`"imbalanced"`). -/
theorem compute_balance_label_counterexample :
    (compute_speaking_balance []).balance_quality = "SIN_DATOS" ∧
    ("SIN_DATOS" : String) ≠ "no_data" :=
  ⟨by decide, by decide⟩

/-- C7 (amended): `_compute_speaking_balance` returns the zeroed
balance labeled `"SIN_DATOS"` when the operator+client word total is 0;
otherwise `operator_percentage = operator_words / total * 100`,
`client_percentage = 100 - operator_percentage` (exactly, in rational
arithmetic), and the quality label is `"BUENO"` exactly when the
operator percentage lies in `[35, 55]` inclusive and `"DESBALANCEADO"`
otherwise. -/
theorem compute_speaking_balance_amended (ts : List SpeakerTranscript) :
    (roleWordSum ts "operator" + roleWordSum ts "client" = 0 →
      compute_speaking_balance ts = no_data_balance) ∧
    (roleWordSum ts "operator" + roleWordSum ts "client" ≠ 0 →
      (compute_speaking_balance ts).operator_percentage
          = ((roleWordSum ts "operator" : ℕ) : ℚ)
            / ((roleWordSum ts "operator" + roleWordSum ts "client" : ℕ) : ℚ) * 100 ∧
      (compute_speaking_balance ts).client_percentage
          = 100 - (compute_speaking_balance ts).operator_percentage ∧
      (compute_speaking_balance ts).operator_words = some (roleWordSum ts "operator") ∧
      (compute_speaking_balance ts).client_words = some (roleWordSum ts "client") ∧
      ((compute_speaking_balance ts).balance_quality = "BUENO" ↔
        (35 ≤ (compute_speaking_balance ts).operator_percentage ∧
         (compute_speaking_balance ts).operator_percentage ≤ 55)) ∧
      ((compute_speaking_balance ts).balance_quality = "BUENO" ∨
       (compute_speaking_balance ts).balance_quality = "DESBALANCEADO")) := by
  have htally : ts.foldl tallyWords (0, 0)
      = (roleWordSum ts "operator", roleWordSum ts "client") := by
    rw [tally_fold_eq ts (0, 0)]
    simp
  constructor
  · intro h
    simp only [compute_speaking_balance, htally]
    rw [if_pos h]
  · intro h
    have hbal : compute_speaking_balance ts =
        { operator_percentage := ((roleWordSum ts "operator" : ℕ) : ℚ)
            / ((roleWordSum ts "operator" + roleWordSum ts "client" : ℕ) : ℚ) * 100,
          client_percentage := ((roleWordSum ts "client" : ℕ) : ℚ)
            / ((roleWordSum ts "operator" + roleWordSum ts "client" : ℕ) : ℚ) * 100,
          operator_words := some (roleWordSum ts "operator"),
          client_words := some (roleWordSum ts "client"),
          unit := some "porcentaje",
          balance_quality := if 35 ≤ ((roleWordSum ts "operator" : ℕ) : ℚ)
              / ((roleWordSum ts "operator" + roleWordSum ts "client" : ℕ) : ℚ) * 100 ∧
              ((roleWordSum ts "operator" : ℕ) : ℚ)
              / ((roleWordSum ts "operator" + roleWordSum ts "client" : ℕ) : ℚ) * 100 ≤ 55
            then "BUENO" else "DESBALANCEADO",
          note := none } := by
      simp only [compute_speaking_balance, htally]
      rw [if_neg h]
    have hcast : ((roleWordSum ts "operator" + roleWordSum ts "client" : ℕ) : ℚ) ≠ 0 := by
      exact_mod_cast h
    have hclient : ((roleWordSum ts "client" : ℕ) : ℚ)
        / ((roleWordSum ts "operator" + roleWordSum ts "client" : ℕ) : ℚ) * 100
        = 100 - ((roleWordSum ts "operator" : ℕ) : ℚ)
            / ((roleWordSum ts "operator" + roleWordSum ts "client" : ℕ) : ℚ) * 100 := by
      push_cast
      push_cast at hcast
      field_simp
      ring
    rw [hbal]
    refine ⟨rfl, hclient, rfl, rfl, ?_, ?_⟩
    · by_cases hc : 35 ≤ ((roleWordSum ts "operator" : ℕ) : ℚ)
          / ((roleWordSum ts "operator" + roleWordSum ts "client" : ℕ) : ℚ) * 100 ∧
          ((roleWordSum ts "operator" : ℕ) : ℚ)
          / ((roleWordSum ts "operator" + roleWordSum ts "client" : ℕ) : ℚ) * 100 ≤ 55
      · rw [if_pos hc]
        constructor
        · intro _
          exact hc
        · intro _
          rfl
      · rw [if_neg hc]
        constructor
        · intro hfalse
          have hbad : ("DESBALANCEADO" : String) = "BUENO" := hfalse
          exact absurd hbad (by decide)
        · intro hcc
          exact absurd hcc hc
    · by_cases hc : 35 ≤ ((roleWordSum ts "operator" : ℕ) : ℚ)
          / ((roleWordSum ts "operator" + roleWordSum ts "client" : ℕ) : ℚ) * 100 ∧
          ((roleWordSum ts "operator" : ℕ) : ℚ)
          / ((roleWordSum ts "operator" + roleWordSum ts "client" : ℕ) : ℚ) * 100 ≤ 55
      · rw [if_pos hc]; exact Or.inl rfl
      · rw [if_neg hc]; exact Or.inr rfl

/-- Witness for C7 (amended) at a concrete role-tagged pair of
entries. -/
theorem compute_speaking_balance_amended_witness :
    (compute_speaking_balance balanceSample).operator_words
        = some (roleWordSum balanceSample "operator") ∧
    ((compute_speaking_balance balanceSample).balance_quality = "BUENO" ∨
     (compute_speaking_balance balanceSample).balance_quality = "DESBALANCEADO") := by
  have h := (compute_speaking_balance_amended balanceSample).2 (by decide)
  exact ⟨h.2.2.1, h.2.2.2.2.2⟩

/-- C9 counterexample: with an analyzer configured, an empty entry list
and an empty combined transcript, `_sentiment_for_roles` still invokes
the analyzer once, on the empty overall text — the overall invocation
is never skipped, contrary to the claim that it is skipped when the
combined transcript is empty. -/
theorem sentiment_overall_counterexample :
    (sentiment_for_roles (some (fun _ => "verdict")) [] "").2 = [""] ∧
    (sentiment_for_roles (some (fun _ => "verdict")) [] "").2 ≠ [] :=
  ⟨rfl, by decide⟩

/-- C9 (amended): `_sentiment_for_roles` with an analyzer invokes it at
most once per candidate text; the operator (resp. client) candidate is
the space-join of the texts of the entries carrying that role, and when
it is empty the result holds `none` for that role and no call is made
for it; the overall call on the combined transcript is always made
(1 to 3 calls). -/
theorem sentiment_for_roles_amended {α : Type} (analyze_text : String → α)
    (ts : List SpeakerTranscript) (combined_text : String) :
    ((sentiment_for_roles (some analyze_text) ts combined_text).2
        = (if pyJoin " " ((ts.filter (fun e => e.role == some "operator")).map
              (fun e => e.text)) = "" then []
           else [pyJoin " " ((ts.filter (fun e => e.role == some "operator")).map
              (fun e => e.text))]) ++
          (if pyJoin " " ((ts.filter (fun e => e.role == some "client")).map
              (fun e => e.text)) = "" then []
           else [pyJoin " " ((ts.filter (fun e => e.role == some "client")).map
              (fun e => e.text))]) ++ [combined_text]) ∧
    (pyJoin " " ((ts.filter (fun e => e.role == some "operator")).map (fun e => e.text)) = "" →
      (sentiment_for_roles (some analyze_text) ts combined_text).1.operator = none) ∧
    (pyJoin " " ((ts.filter (fun e => e.role == some "client")).map (fun e => e.text)) = "" →
      (sentiment_for_roles (some analyze_text) ts combined_text).1.client = none) ∧
    (sentiment_for_roles (some analyze_text) ts combined_text).1.overall
        = some (analyze_text combined_text) ∧
    (sentiment_for_roles (some analyze_text) ts combined_text).2.length ≤ 3 ∧
    combined_text ∈ (sentiment_for_roles (some analyze_text) ts combined_text).2 := by
  refine ⟨rfl, ?_, ?_, rfl, ?_, ?_⟩
  · intro h
    simp only [sentiment_for_roles]
    rw [if_pos h]
  · intro h
    simp only [sentiment_for_roles]
    rw [if_pos h]
  · simp only [sentiment_for_roles]
    by_cases h1 : pyJoin " " ((ts.filter (fun e => e.role == some "operator")).map
        (fun e => e.text)) = "" <;>
      by_cases h2 : pyJoin " " ((ts.filter (fun e => e.role == some "client")).map
        (fun e => e.text)) = "" <;>
      simp [h1, h2]
  · simp only [sentiment_for_roles]
    simp [List.mem_append]

/-- Witness for C9 (amended) at a concrete entry with empty operator
text. -/
theorem sentiment_for_roles_amended_witness :
    (sentiment_for_roles (some (fun _ => "verdict")) sentimentSample "c").1.operator = none ∧
    "c" ∈ (sentiment_for_roles (some (fun _ => "verdict")) sentimentSample "c").2 := by
  have h := sentiment_for_roles_amended (fun _ => "verdict") sentimentSample "c"
  exact ⟨h.2.1 (by decide), h.2.2.2.2.2⟩

lemma diarize_speakers (threshold : ℚ) (hop_length sr n_samples : ℕ) (energies : List ℚ) :
    ∀ seg ∈ diarize threshold hop_length sr n_samples energies,
      seg.speaker = "speaker_1" ∨ seg.speaker = "speaker_2" := by
  intro seg hseg
  simp only [diarize] at hseg
  by_cases hh : (diarizeScan threshold hop_length sr energies).isEmpty = true
  · rw [if_pos hh, List.mem_singleton] at hseg
    rw [hseg]
    left
    rfl
  · rw [if_neg hh, diarizeScan_eq_specSegments] at hseg
    exact labelSpans_speaker hop_length sr _ 0 seg hseg

lemma align_speakers (whisper_segments : List WhisperSegment)
    (diar_segments : List SpeakerSegment) :
    ∀ a ∈ align_segments whisper_segments diar_segments,
      a.speaker = "speaker_1" ∨ ∃ d ∈ diar_segments, a.speaker = d.speaker := by
  intro a ha
  simp only [align_segments, List.mem_map] at ha
  rcases ha with ⟨w, _, heq⟩
  cases hf : diar_segments.find?
      (fun ds => decide (ds.start ≤ midpointOf w) && decide (midpointOf w ≤ ds.stop)) with
  | none =>
    left
    rw [← heq]
    simp only [align_one]
    rw [hf]
  | some d =>
    right
    refine ⟨d, List.mem_of_find?_eq_some hf, ?_⟩
    rw [← heq]
    simp only [align_one]
    rw [hf]

lemma tally_zero (ts : List SpeakerTranscript)
    (h : ∀ e ∈ ts, roleOf e ≠ "operator" ∧ roleOf e ≠ "client") :
    compute_speaking_balance ts = no_data_balance := by
  have hop : roleWordSum ts "operator" = 0 := by
    unfold roleWordSum
    have hf : ts.filter (fun e => roleOf e = "operator") = [] := by
      rw [List.filter_eq_nil_iff]
      intro e he
      simpa using (h e he).1
    rw [hf]
    rfl
  have hcl : roleWordSum ts "client" = 0 := by
    unfold roleWordSum
    have hf : ts.filter (fun e => roleOf e = "client") = [] := by
      rw [List.filter_eq_nil_iff]
      intro e he
      simpa using (h e he).2
    rw [hf]
    rfl
  have htally : ts.foldl tallyWords (0, 0) = ((0 : ℕ), (0 : ℕ)) := by
    rw [tally_fold_eq ts (0, 0), hop, hcl]
  simp only [compute_speaking_balance]
  rw [htally]
  rfl

lemma sentiment_none_of_roleless {α : Type} (analyzer : Option (String → α))
    (ts : List SpeakerTranscript) (combined_text : String)
    (h : ∀ e ∈ ts, e.role = none) :
    (sentiment_for_roles analyzer ts combined_text).1.operator = none ∧
    (sentiment_for_roles analyzer ts combined_text).1.client = none := by
  cases analyzer with
  | none => exact ⟨rfl, rfl⟩
  | some f =>
    have hopf : ts.filter (fun e => e.role == some "operator") = [] := by
      rw [List.filter_eq_nil_iff]
      intro e he
      rw [h e he]
      decide
    have hclf : ts.filter (fun e => e.role == some "client") = [] := by
      rw [List.filter_eq_nil_iff]
      intro e he
      rw [h e he]
      decide
    simp only [sentiment_for_roles, hopf, hclf]
    simp [pyJoin]

/-- C2: a stereo profile routes to `_process_stereo`, whose role
mapping is the fixed business convention (left=operator,
right=client, confidence 0.95, strategy `stereo_channel_mapping`),
whose transcript `segments` list is empty, and whose event trace
contains no diarizer, aligner or role-inference invocation. -/
theorem process_stereo_fixed_mapping {α : Type} (inp : PipelineInput α)
    (h : inp.profile.channels = 2) :
    (process_audio inp).1.transcript.role_mapping =
      { operator := some "channel_left", client := some "channel_right", confidence := 0.95,
        strategy := "stereo_channel_mapping", uncertain := none,
        notes := some "Canal izquierdo forzado a operador por policy" } ∧
    (process_audio inp).1.transcript.segments = [] ∧
    Event.diarizeCall ∉ (process_audio inp).2 ∧
    Event.alignCall ∉ (process_audio inp).2 ∧
    Event.inferRolesCall ∉ (process_audio inp).2 := by
  have hb : inp.profile.is_stereo = true := by
    unfold AudioProfile.is_stereo
    exact beq_iff_eq.mpr h
  have hroute : process_audio inp = process_stereo inp := by
    simp [process_audio, hb]
  rw [hroute]
  refine ⟨rfl, rfl, ?_, ?_, ?_⟩ <;>
    simp [process_stereo, List.mem_append, List.mem_cons, List.mem_map]

/-- Witness for C2 at a concrete stereo input. -/
theorem process_stereo_fixed_mapping_witness :
    (process_audio stereoInputSample).1.transcript.role_mapping =
      { operator := some "channel_left", client := some "channel_right", confidence := 0.95,
        strategy := "stereo_channel_mapping", uncertain := none,
        notes := some "Canal izquierdo forzado a operador por policy" } ∧
    (process_audio stereoInputSample).1.transcript.segments = [] :=
  ⟨(process_stereo_fixed_mapping stereoInputSample (by decide)).1,
   (process_stereo_fixed_mapping stereoInputSample (by decide)).2.1⟩

/-- C8: on the mono path the aggregated entries never carry a role, so
the balance computation takes its zero-total branch and the sentiment
aggregator yields `none` for both the operator and the client role. -/
theorem mono_path_roleless {α : Type} (inp : PipelineInput α)
    (h : inp.profile.channels ≠ 2) :
    (∀ e ∈ (process_audio inp).1.transcript.transcript_by_speaker, e.role = none) ∧
    (process_audio inp).1.transcript.speaking_balance = no_data_balance ∧
    (process_audio inp).1.transcript.sentiment_by_role.operator = none ∧
    (process_audio inp).1.transcript.sentiment_by_role.client = none := by
  have hb : inp.profile.is_stereo = false := by
    unfold AudioProfile.is_stereo
    exact beq_eq_false_iff_ne.mpr h
  have hroute : process_audio inp = process_mono inp := by
    simp [process_audio, hb]
  rw [hroute]
  have hfield1 : (process_mono inp).1.transcript.transcript_by_speaker
      = aggregate_by_speaker (align_segments (inp.transcribe inp.audio_path true).segments
          (diarize inp.threshold inp.hop_length inp.sr inp.n_samples inp.energies)) := rfl
  have hroles : ∀ e ∈ (process_mono inp).1.transcript.transcript_by_speaker, e.role = none := by
    rw [hfield1]
    intro e he
    exact ((aggregate_props _).2 e he).1
  have hspeakers : ∀ e ∈ (process_mono inp).1.transcript.transcript_by_speaker,
      e.speaker ≠ "operator" ∧ e.speaker ≠ "client" := by
    rw [hfield1]
    intro e he
    have hm : e.speaker ∈ (aggregate_by_speaker (align_segments
        (inp.transcribe inp.audio_path true).segments
        (diarize inp.threshold inp.hop_length inp.sr inp.n_samples inp.energies))).map
          (fun x => x.speaker) := List.mem_map_of_mem (fun x => x.speaker) he
    rw [(aggregate_props _).1, firstOccur] at hm
    have hm2 := ((mem_firstOccurAux _ _ _).mp hm).1
    rcases List.mem_map.mp hm2 with ⟨a, ha, haeq⟩
    have hsp := align_speakers (inp.transcribe inp.audio_path true).segments
      (diarize inp.threshold inp.hop_length inp.sr inp.n_samples inp.energies) a ha
    rcases hsp with h1 | ⟨d, hd, h2⟩
    · rw [← haeq, h1]
      exact ⟨by decide, by decide⟩
    · have hds := diarize_speakers inp.threshold inp.hop_length inp.sr inp.n_samples
        inp.energies d hd
      rcases hds with h3 | h3 <;> rw [← haeq, h2, h3] <;> exact ⟨by decide, by decide⟩
  have hnorole : ∀ e ∈ (process_mono inp).1.transcript.transcript_by_speaker,
      roleOf e ≠ "operator" ∧ roleOf e ≠ "client" := by
    intro e he
    have hr := hroles e he
    have hre : roleOf e = e.speaker := by
      unfold roleOf
      rw [hr]
    rw [hre]
    exact hspeakers e he
  refine ⟨hroles, ?_, ?_, ?_⟩
  · exact tally_zero _ hnorole
  · exact (sentiment_none_of_roleless inp.analyzer _ _ hroles).1
  · exact (sentiment_none_of_roleless inp.analyzer _ _ hroles).2

/-- Witness for C8 at a concrete mono input. -/
theorem mono_path_roleless_witness :
    (process_audio monoInputSample).1.transcript.speaking_balance = no_data_balance ∧
    (process_audio monoInputSample).1.transcript.sentiment_by_role.operator = none ∧
    (process_audio monoInputSample).1.transcript.sentiment_by_role.client = none :=
  (mono_path_roleless monoInputSample (by decide)).2

/-- C10 (code bug): the two temporary channel files are created with
`NamedTemporaryFile(delete=False)` and no statement of the source ever
deletes them, so even a fully successful stereo run leaks both files —
contradicting the claim that they are deleted on every exit path. -/
theorem stereo_temp_files_leaked :
    leaked_temp_files (process_audio stereoInputSample).2
      = ["/tmp/tmp1_left.wav", "/tmp/tmp2_right.wav"] ∧
    leaked_temp_files (process_audio stereoInputSample).2 ≠ [] :=
  ⟨by decide, by decide⟩
